import Mathlib

/-!
Verification development for the notion-pull exporter.

The definitions below are shallow embeddings of the TypeScript sources:
`src/output/pathPlanner.ts`, `src/output/writer.ts`, `src/markdown/renderer.ts`
and `src/notion/traversal.ts`.  Strings are modelled as Lean `String`
(lists of characters); JavaScript regular-expression pipelines are modelled
by explicit character-list transformations; `path.join` is modelled as
interposing a `/` separator (the sanitized segments never contain a
separator, so no normalization is needed); the whitespace class of the
JavaScript regexes and of `String.prototype.trim` is modelled by the ASCII
whitespace characters.
-/

namespace NotionPull

/-- Whitespace class used both for the JS `trim()` and for the `\s` regex
class (modelled by the ASCII whitespace characters). -/
def isWsChar (c : Char) : Bool :=
  c = ' ' || c = '\t' || c = '\n' || c = '\r' || c = '\x0b' || c = '\x0c'

/-- Characters of the pathPlanner regex class `[\\/:"*?<>|]`. -/
def isIllegalChar (c : Char) : Bool :=
  c = '\\' || c = '/' || c = ':' || c = '"' || c = '*' || c = '?' ||
  c = '<' || c = '>' || c = '|'

/-- Model of `String.prototype.trim`: drop whitespace from both ends. -/
def trimChars (l : List Char) : List Char :=
  ((l.dropWhile isWsChar).reverse.dropWhile isWsChar).reverse

/-- Model of `s.replace(/X+/g, rep)` for a character class `p`: every maximal
run of characters satisfying `p` is replaced by the single character `rep`.
The boolean argument records whether we are inside a run. -/
def replaceRunsGo (p : Char → Bool) (rep : Char) : Bool → List Char → List Char
  | _, [] => []
  | inRun, c :: cs =>
    if p c then
      if inRun then replaceRunsGo p rep true cs
      else rep :: replaceRunsGo p rep true cs
    else c :: replaceRunsGo p rep false cs

def replaceRuns (p : Char → Bool) (rep : Char) (l : List Char) : List Char :=
  replaceRunsGo p rep false l

/-- Model of `s.replace(/\.+$/g, "")`: strip the trailing run of dots. -/
def stripTrailingDots (l : List Char) : List Char :=
  (l.reverse.dropWhile (· = '.')).reverse

/-- Model of `s.replace(/^-+|-+$/g, "")`: strip the leading and the trailing
run of hyphens. -/
def stripEdgeHyphens (l : List Char) : List Char :=
  ((l.dropWhile (· = '-')).reverse.dropWhile (· = '-')).reverse

/-- The per-segment sanitization pipeline of `sanitizeSegments`
(src/output/pathPlanner.ts): trim, replace runs of illegal characters by
`-`, collapse whitespace runs to a single space, strip trailing dots, strip
edge hyphens, and fall back to a placeholder when the result is empty.
`isLast` tells whether the segment is the final one of the list
(`index === segments.length - 1`). -/
def sanitizeSegment (isLast : Bool) (s : String) : String :=
  let t0 := trimChars s.data
  let t1 := replaceRuns isIllegalChar '-' t0
  let t2 := replaceRuns isWsChar ' ' t1
  let t3 := stripTrailingDots t2
  let t4 := stripEdgeHyphens t3
  if t4.isEmpty then (if isLast then "Untitled Page" else "Untitled")
  else String.mk t4

/-- `sanitizeSegments` maps `sanitizeSegment` over the list; the index
comparison `index === segments.length - 1` of the source is rendered as
"is the last element". -/
def sanitizeSegments : List String → List String
  | [] => []
  | [s] => [sanitizeSegment true s]
  | s :: s2 :: rest => sanitizeSegment false s :: sanitizeSegments (s2 :: rest)

/-- The `PageNode` fields that the path planner and the traversal use
(src/types.ts); `page` and `blocks` carry no information used by the
verified components and are omitted. -/
structure PageNode where
  id : String
  title : String
  path : List String
  hasChildPages : Bool
deriving Repr, DecidableEq

structure PageLocation where
  directory : String
  fileName : String
  filePath : String
  directorySegments : List String
  fileBaseName : String
deriving Repr, DecidableEq

/-- Model of `path.join(baseDir, ...segments)`; sanitized segments contain
no path separator, so joining is plain interposition of `/`. -/
def joinPath (base : String) (segs : List String) : String :=
  segs.foldl (fun acc s => acc ++ "/" ++ s) base

/-- `PagePathPlanner.resolve` (src/output/pathPlanner.ts). -/
def resolve (baseDir : String) (page : PageNode) : PageLocation :=
  let normalizedSegments := sanitizeSegments (page.path ++ [page.title])
  let fileBaseName := normalizedSegments.getLastD page.id
  let ancestorSegments := normalizedSegments.dropLast
  let needsOwnDirectory := page.hasChildPages || page.path.length == 0
  let directorySegments :=
    if needsOwnDirectory then ancestorSegments ++ [fileBaseName] else ancestorSegments
  let directory :=
    if directorySegments.length > 0 then joinPath baseDir directorySegments else baseDir
  let fileName := fileBaseName ++ ".md"
  let filePath := directory ++ "/" ++ fileName
  { directory := directory
    fileName := fileName
    filePath := filePath
    directorySegments := directorySegments
    fileBaseName := fileBaseName }

/-! ## Markdown renderer: asset naming (src/markdown/renderer.ts) -/

/-- Character class of the `sanitizeFileName` regex `[\\/:"*?<>|\s]`. -/
def isFileNameIllegal (c : Char) : Bool := isIllegalChar c || isWsChar c

/-- Model of `s.replace(/^-|-$/g, "")`: remove one leading and one trailing
hyphen (the regex has no `+`). -/
def stripOneEdgeHyphen (l : List Char) : List Char :=
  let l1 := match l with | '-' :: t => t | _ => l
  match l1.getLast? with
  | some '-' => l1.dropLast
  | _ => l1

/-- `sanitizeFileName` (src/markdown/renderer.ts): trim, replace runs of
illegal-or-whitespace characters by `-`, collapse hyphen runs, strip one
edge hyphen on each side, lower-case, truncate to 64 characters, and fall
back to `"asset"` when empty. -/
def sanitizeFileName (value : String) : String :=
  let t0 := trimChars value.data
  let t1 := replaceRuns isFileNameIllegal '-' t0
  let t2 := replaceRuns (· = '-') '-' t1
  let t3 := stripOneEdgeHyphen t2
  let t4 := (t3.map Char.toLower).take 64
  if t4.isEmpty then "asset" else String.mk t4

/-- Index of the last `'.'` in the character list (JS `lastIndexOf`,
`none` standing for `-1`). -/
def lastDotIdx (l : List Char) : Option Nat :=
  ((List.range l.length).filter (fun i => l.getD i ' ' == '.')).getLast?

/-- `splitExtension` (src/markdown/renderer.ts): split at the last dot;
a dot at index `<= 0` yields an empty extension. -/
def splitExtension (fileName : String) : String × String :=
  match lastDotIdx fileName.data with
  | none => (fileName, "")
  | some 0 => (fileName, "")
  | some i => (String.mk (fileName.data.take i), String.mk (fileName.data.drop i))

/-- Split a character list on a separator character (model of
`String.prototype.split`). -/
def splitChar (sep : Char) : List Char → List (List Char)
  | [] => [[]]
  | c :: cs =>
    if c = sep then [] :: splitChar sep cs
    else
      match splitChar sep cs with
      | [] => [[c]]
      | g :: gs => (c :: g) :: gs

/-- Characters after the first `"://"`, if any. -/
def afterSchemeSep : List Char → Option (List Char)
  | ':' :: '/' :: '/' :: rest => some rest
  | _ :: cs => afterSchemeSep cs
  | [] => none

/-- `extractExtension` (src/markdown/renderer.ts).  The `new URL(url)`
parse is modelled shallowly: a URL must contain `"://"` (otherwise the
constructor throws and the function returns `none`); its pathname is the
part from the first `/` after the authority up to `?` or `#`; the last
`/`-separated segment is inspected for an interior dot. -/
def extractExtension (url : String) : Option String :=
  match afterSchemeSep url.data with
  | none => none
  | some rest =>
    let afterAuth := rest.dropWhile (· ≠ '/')
    let pathname :=
      if afterAuth.isEmpty then ['/']
      else afterAuth.takeWhile (fun c => !(c = '?' || c = '#'))
    let lastSegment := (splitChar '/' pathname).getLastD []
    match lastDotIdx lastSegment with
    | none => none
    | some i =>
      if 0 < i ∧ i < lastSegment.length - 1 then some (String.mk (lastSegment.drop i))
      else none

inductive AssetType where
  | image | file | audio | video | pdf | external
deriving Repr, DecidableEq

/-- `guessExtension` (src/markdown/renderer.ts). -/
def guessExtension (url : String) (t : AssetType) : String :=
  match extractExtension url with
  | some e => e
  | none =>
    match t with
    | .image => ".png"
    | .audio => ".mp3"
    | .video => ".mp4"
    | .pdf => ".pdf"
    | _ => ".bin"

/-- Decimal digit character. -/
def digitChar : Nat → Char
  | 0 => '0' | 1 => '1' | 2 => '2' | 3 => '3' | 4 => '4'
  | 5 => '5' | 6 => '6' | 7 => '7' | 8 => '8' | 9 => '9'
  | _ => '*'

/-- Decimal digits of `n` (most significant first), with structural fuel;
`decDigits (n+1) n` is the usual decimal numeral. -/
def decDigits : Nat → Nat → List Char
  | 0, _ => []
  | fuel + 1, n =>
    if n < 10 then [digitChar n]
    else decDigits fuel (n / 10) ++ [digitChar (n % 10)]

/-- Decimal numeral of `n` (model of JS number-to-string interpolation). -/
def natDec (n : Nat) : String := String.mk (decDigits (n + 1) n)

/-- The collision candidate built by `uniqueFileName`:
`` ` ``-free model of `${name}-${index}${ext}`. -/
def mkIndexed (name ext : String) (i : Nat) : String :=
  name ++ "-" ++ natDec i ++ ext

/-- The `while (used.has(next)) index += 1` search of `uniqueFileName`,
written with structural fuel; `used.length + 1` steps provably suffice
(theorem `searchFresh_fresh` below), so the bounded search computes exactly
what the unbounded JS loop computes. -/
def searchFresh (name ext : String) (used : List String) : Nat → Nat → Nat
  | 0, i => i
  | fuel + 1, i =>
    if mkIndexed name ext i ∈ used then searchFresh name ext used fuel (i + 1) else i

/-- `uniqueFileName` (src/markdown/renderer.ts): keep the candidate when it
is unused, otherwise append the least numeric suffix `>= 2` (before the
extension) that gives an unused name. -/
def uniqueFileName (candidate : String) (used : List String) : String :=
  if candidate ∈ used then
    let ne := splitExtension candidate
    mkIndexed ne.1 ne.2 (searchFresh ne.1 ne.2 used (used.length + 1) 2)
  else candidate

/-- The inputs of `createAsset` (src/markdown/renderer.ts). -/
structure AssetReq where
  id : String
  url : String
  caption : Option String
  type : AssetType
deriving Repr, DecidableEq

structure AssetPlan where
  id : String
  originalUrl : String
  localPath : String
  type : AssetType
  caption : Option String
deriving Repr, DecidableEq

/-- The parts of the renderer's per-page `RenderContext` that asset naming
uses: the `usedAssetNames` set (modelled as a list with membership) and the
accumulated plans. -/
structure RenderAcc where
  usedAssetNames : List String
  assets : List AssetPlan
deriving Repr, DecidableEq

/-- `createAsset` (src/markdown/renderer.ts); `path.posix.join("img", f)`
is `"img/" ++ f` for the slash-free file names produced here.  The
`used.add` of `uniqueFileName` is rendered as consing the returned name. -/
def createAsset (acc : RenderAcc) (o : AssetReq) : RenderAcc :=
  let extension := guessExtension o.url o.type
  let baseName := sanitizeFileName (o.caption.getD o.id)
  let fileName := uniqueFileName (baseName ++ extension) acc.usedAssetNames
  let localPath := "img/" ++ fileName
  { usedAssetNames := fileName :: acc.usedAssetNames
    assets := acc.assets ++
      [{ id := o.id, originalUrl := o.url, localPath := localPath,
         type := o.type, caption := o.caption }] }

/-- One render pass of a page, restricted to its media blocks in document
order: each one goes through `createAsset` against the shared context. -/
def renderAssets (reqs : List AssetReq) : RenderAcc :=
  reqs.foldl createAsset { usedAssetNames := [], assets := [] }

/-! ## Markdown renderer: rich text (src/markdown/renderer.ts) -/

structure Annotations where
  bold : Bool := false
  italic : Bool := false
  strikethrough : Bool := false
  underline : Bool := false
  code : Bool := false
deriving Repr, DecidableEq

/-- The fields of a rich-text item that `richTextItemToMarkdown` reads;
`textContent` is `segment.text?.content` and `textLinkUrl` is
`segment.text?.link?.url`. -/
structure RichTextSegment where
  plain_text : Option String := none
  href : Option String := none
  type : Option String := none
  textContent : Option String := none
  textLinkUrl : Option String := none
  annotations : Annotations := {}
  equationExpression : Option String := none
deriving Repr, DecidableEq

/-- JS truthiness of an optional string (`undefined`, `null` and `""` are
falsy). -/
def truthyStr : Option String → Bool
  | none => false
  | some s => !s.isEmpty

/-- `richTextItemToMarkdown` (src/markdown/renderer.ts), transcribed
statement by statement.  Note the order: equation substitution, then the
hyperlink wrap, then `code` (returned directly), then
bold/italic/strikethrough/underline. -/
def richTextItemToMarkdown (segment : RichTextSegment) : String :=
  let text0 := segment.plain_text.getD (segment.textContent.getD "")
  let href := segment.href <|> segment.textLinkUrl
  let ty := segment.type.getD "text"
  let text1 :=
    if ty == "equation" && truthyStr segment.equationExpression then
      "$" ++ segment.equationExpression.getD "" ++ "$"
    else text0
  let text2 :=
    if truthyStr href then "[" ++ text1 ++ "](" ++ href.getD "" ++ ")" else text1
  if segment.annotations.code then "`" ++ text2 ++ "`"
  else
    let t3 := if segment.annotations.bold then "**" ++ text2 ++ "**" else text2
    let t4 := if segment.annotations.italic then "*" ++ t3 ++ "*" else t3
    let t5 := if segment.annotations.strikethrough then "~~" ++ t4 ++ "~~" else t4
    if segment.annotations.underline then "<u>" ++ t5 ++ "</u>" else t5

/-- `richTextArrayToMarkdown` (src/markdown/renderer.ts): concatenation in
document order with no separator. -/
def richTextArrayToMarkdown (segments : List RichTextSegment) : String :=
  if segments.isEmpty then "" else String.join (segments.map richTextItemToMarkdown)

/-- The plain text of a segment (`plain_text ?? text?.content ?? ""`). -/
def segPlainText (segment : RichTextSegment) : String :=
  segment.plain_text.getD (segment.textContent.getD "")

/-- Equation substitution stage. -/
def applyEquation (segment : RichTextSegment) (t : String) : String :=
  if segment.type.getD "text" == "equation" && truthyStr segment.equationExpression then
    "$" ++ segment.equationExpression.getD "" ++ "$"
  else t

/-- Hyperlink wrapping stage (`href ?? text?.link?.url`, wrapped only when
truthy). -/
def applyLink (segment : RichTextSegment) (t : String) : String :=
  let href := segment.href <|> segment.textLinkUrl
  if truthyStr href then "[" ++ t ++ "](" ++ href.getD "" ++ ")" else t

/-- Annotation formatting stage: `code` takes precedence and suppresses the
others, which otherwise apply in bold, italic, strikethrough, underline
order (each wrapping outside the previous). -/
def applyAnnotations (a : Annotations) (t : String) : String :=
  if a.code then "`" ++ t ++ "`"
  else
    let t3 := if a.bold then "**" ++ t ++ "**" else t
    let t4 := if a.italic then "*" ++ t3 ++ "*" else t3
    let t5 := if a.strikethrough then "~~" ++ t4 ++ "~~" else t4
    if a.underline then "<u>" ++ t5 ++ "</u>" else t5

/-- Modelled from the spec (claim C6 wording): the annotation formatting is
applied to the (equation-substituted) plain text first, and the hyperlink
wraps the result, i.e. the link is outermost. -/
def richTextItemClaimed (segment : RichTextSegment) : String :=
  applyLink segment (applyAnnotations segment.annotations (applyEquation segment (segPlainText segment)))

/-- The repaired stage order: the hyperlink is applied to the
equation-substituted text first, and the annotation formatting wraps
outside the link. -/
def richTextItemAmendedSpec (segment : RichTextSegment) : String :=
  applyAnnotations segment.annotations (applyLink segment (applyEquation segment (segPlainText segment)))

/-! ## Retry policy (src/notion/traversal.ts) -/

def MAX_RETRIES : Nat := 3
def INITIAL_DELAY_MS : Nat := 500

/-- The observable shape of a caught exception, as probed by `withRetries`,
`isRetryableNotionError` and `isNetworkError`: whether the Notion SDK
recognises it (`isNotionClientError`), its `code` and `status` fields, the
`TypeError`-with-"fetch failed"-message test, the `errors` list of an
`AggregateError`, and `cause.code`. -/
inductive ErrObj where
  | mk (isNotionClientError : Bool) (code : Option String) (status : Option Int)
       (fetchFailedTypeError : Bool) (aggregated : List ErrObj) (causeCode : Option String)

def ErrObj.isNotionClientError : ErrObj → Bool
  | .mk b _ _ _ _ _ => b

def ErrObj.code : ErrObj → Option String
  | .mk _ c _ _ _ _ => c

def ErrObj.status : ErrObj → Option Int
  | .mk _ _ s _ _ _ => s

/-- `isRetryableNotionError` (src/notion/traversal.ts): rate limiting
(`APIErrorCode.RateLimited`, the string `"rate_limited"`) or a 5xx status. -/
def isRetryableNotionError (e : ErrObj) : Bool :=
  e.code == some "rate_limited" ||
  (match e.status with
   | some s => decide (500 ≤ s)
   | none => false)

def NETWORK_ERROR_CODES : List String :=
  ["ETIMEDOUT", "ECONNRESET", "ENOTFOUND", "EAI_AGAIN", "ECONNREFUSED",
   "EPIPE", "EHOSTUNREACH", "ERR_SOCKET_TIMEOUT"]

mutual

/-- `isNetworkError` (src/notion/traversal.ts): a `TypeError` whose message
contains "fetch failed", an `AggregateError` one of whose inner errors is a
network error, a direct `code` in `NETWORK_ERROR_CODES`, or a `cause.code`
in `NETWORK_ERROR_CODES`. -/
def isNetworkError : ErrObj → Bool
  | .mk _ code _ fetchFailed aggregated causeCode =>
    fetchFailed ||
    anyIsNetworkError aggregated ||
    (match code with
     | some c => NETWORK_ERROR_CODES.contains c
     | none => false) ||
    (match causeCode with
     | some c => NETWORK_ERROR_CODES.contains c
     | none => false)

def anyIsNetworkError : List ErrObj → Bool
  | [] => false
  | e :: es => isNetworkError e || anyIsNetworkError es

end

/-- The retry classification applied by `withRetries`: Notion client errors
go through `isRetryableNotionError`, everything else through
`isNetworkError`. -/
def isRetryableClass (e : ErrObj) : Bool :=
  if e.isNotionClientError then isRetryableNotionError e else isNetworkError e

/-- The backoff delay slept before attempt `attempt + 1`
(`INITIAL_DELAY_MS * Math.pow(2, attempt - 1)`). -/
def retryDelay (attempt : Nat) : Nat := INITIAL_DELAY_MS * 2 ^ (attempt - 1)

/-- `withRetries` (src/notion/traversal.ts) over an attempt-indexed oracle
`op` giving the outcome of each underlying call; returns the final outcome
together with the list of backoff sleeps performed, in order. -/
def withRetries (op : Nat → Except ErrObj α) (attempt : Nat) :
    Except ErrObj α × List Nat :=
  match op attempt with
  | .ok v => (.ok v, [])
  | .error e =>
    if MAX_RETRIES ≤ attempt then (.error e, [])
    else if !isRetryableClass e then (.error e, [])
    else
      let d := retryDelay attempt
      let r := withRetries op (attempt + 1)
      (r.1, d :: r.2)
termination_by MAX_RETRIES - attempt
decreasing_by simp_all [MAX_RETRIES]; omega

/-! ## Output writer (src/output/writer.ts) -/

/-- A flat model of the filesystem: file path to contents, plus the set of
directories that exist. -/
structure FS where
  files : List (String × String)
  dirs : List String
deriving Repr, DecidableEq

def fileExists (fs : FS) (p : String) : Bool :=
  fs.files.any (fun f => f.1 == p)

def writeFileFS (fs : FS) (p : String) (content : String) : FS :=
  { fs with files := (p, content) :: fs.files.filter (fun f => f.1 != p) }

/-- `mkdir(d, { recursive: true })`: idempotent creation of the directory
(the implicit creation of intermediate parents is abstracted away; only
membership of the target directory is observed by the claims). -/
def mkdirRec (fs : FS) (d : String) : FS :=
  { fs with dirs := if fs.dirs.contains d then fs.dirs else d :: fs.dirs }

/-- `path.dirname`: everything before the last `/`, or `"."`. -/
def dirName (p : String) : String :=
  if p.data.contains '/' then
    String.mk ((p.data.reverse.dropWhile (· ≠ '/')).reverse.dropLast)
  else "."

/-- A downloaded asset as the writer sees it (`AssetDescriptor`): its plan
fields plus the byte payload (opaque, modelled as a string). -/
structure AssetData where
  localPath : String
  originalUrl : String
  data : String
deriving Repr, DecidableEq

structure WriterConfig where
  baseDir : String
  dryRun : Bool
  force : Bool
deriving Repr, DecidableEq

/-- `writeAssets` (src/output/writer.ts): create the `img` directory, then
write each asset, skipping existing ones unless forced.  Returns the new
filesystem and the log messages in order. -/
def writeAssets (pageDir : String) (assets : List AssetData) (force : Bool) (fs : FS) :
    FS × List String :=
  let fs1 := mkdirRec fs (pageDir ++ "/img")
  assets.foldl
    (fun st a =>
      let dest := pageDir ++ "/" ++ a.localPath
      let fs2 := mkdirRec st.1 (dirName dest)
      if !force && fileExists fs2 dest then (fs2, st.2 ++ ["Asset exists - skipping"])
      else (writeFileFS fs2 dest a.data, st.2 ++ ["Asset written"]))
    (fs1, [])

/-- `createOutputWriter(...).writePage` (src/output/writer.ts), as a state
transformer on the filesystem model; the second component is the list of
log messages emitted. -/
def writePage (cfg : WriterConfig) (page : PageNode) (content : String)
    (assets : List AssetData) (fs : FS) : FS × List String :=
  let location := resolve cfg.baseDir page
  if cfg.dryRun then (fs, ["Dry run: skipping write"])
  else
    let fs1 := mkdirRec fs location.directory
    if !cfg.force && fileExists fs1 location.filePath then
      (fs1, ["File exists - skipping (use --force to overwrite)"])
    else
      let fs2 := writeFileFS fs1 location.filePath content
      let r :=
        if assets.length > 0 then writeAssets (dirName location.filePath) assets cfg.force fs2
        else (fs2, [])
      (r.1, r.2 ++ ["Page written"])

/-! ## Traversal engine (src/notion/traversal.ts) -/

/-- `normalizeId`: strip hyphens; keep the stripped form only when it has
exactly 32 characters. -/
def normalizeId (id : String) : String :=
  let stripped := id.data.filter (fun c => c != '-')
  if stripped.length == 32 then String.mk stripped else id

structure QueueItem where
  id : String
  path : List String
deriving Repr, DecidableEq

instance {ε α : Type} [DecidableEq ε] [DecidableEq α] : DecidableEq (Except ε α) := fun a b =>
  match a, b with
  | .ok x, .ok y =>
    if h : x = y then isTrue (by rw [h]) else isFalse (by simp [h])
  | .error x, .error y =>
    if h : x = y then isTrue (by rw [h]) else isFalse (by simp [h])
  | .ok _, .error _ => isFalse (by simp)
  | .error _, .ok _ => isFalse (by simp)

/-- The observable outcome of one `traverse` run: the visited set, the
page-load failures logged at the catch in the dequeue loop (page id and
reason, as in the "Failed to load page" log record), and the settled
outcome of each dispatched handler, keyed by page id in dispatch order. -/
structure TraverseState where
  visited : List String
  loadErrors : List (String × String)
  handlerResults : List (String × Except String Unit)
deriving Repr, DecidableEq

/-- The outcome of `buildPageNode` for a given page id: either a load error
(after the retry policy) or the page title together with the ids of the
`child_page` blocks found in its block tree, in order. -/
abbrev Loader := String → Except String (String × List String)

def exceptIsError : Except ε α → Bool
  | .error _ => true
  | .ok _ => false

/-- The dequeue loop of `traverse` (src/notion/traversal.ts), with the
number of dequeue steps as structural fuel.  Each step pops the queue head,
skips it when visited, marks it visited, loads it (a load failure is caught
and logged, and the loop continues), enqueues its child pages with the
extended ancestor path, and dispatches the handler.  The handler outcome is
recorded but — exactly as in the source, where the promise is only pushed
into `pending` — has no influence on the loop. -/
def traverseLoop (loader : Loader) (handler : PageNode → Except String Unit) :
    Nat → List QueueItem → TraverseState → TraverseState
  | 0, _, st => st
  | _ + 1, [], st => st
  | fuel + 1, current :: rest, st =>
    if st.visited.contains current.id then traverseLoop loader handler fuel rest st
    else
      let st1 := { st with visited := st.visited ++ [current.id] }
      match loader current.id with
      | .error e =>
        traverseLoop loader handler fuel rest
          { st1 with loadErrors := st1.loadErrors ++ [(current.id, e)] }
      | .ok (title, childIds) =>
        let node : PageNode :=
          { id := current.id, title := title, path := current.path,
            hasChildPages := !childIds.isEmpty }
        let children := childIds.map fun cid =>
          QueueItem.mk (normalizeId cid) (current.path ++ [title])
        traverseLoop loader handler fuel (rest ++ children)
          { st1 with handlerResults := st1.handlerResults ++ [(current.id, handler node)] }

/-- `traverse` with an explicit root id: run the dequeue loop from the
normalized root, then `await Promise.all(pending)` — the returned promise
rejects exactly when some dispatched handler rejected, and otherwise
resolves with the run's outcome. -/
def traverse (loader : Loader) (handler : PageNode → Except String Unit)
    (rootPageId : String) (fuel : Nat) : Except Unit TraverseState :=
  let st := traverseLoop loader handler fuel [⟨normalizeId rootPageId, []⟩]
    { visited := [], loadErrors := [], handlerResults := [] }
  if st.handlerResults.any (fun r => exceptIsError r.2) then .error () else .ok st

/-- A rich-text segment with plain text "t", a link target "u" and the bold
annotation. -/
def segBoldLinkDemo : RichTextSegment :=
  { plain_text := some "t"
    href := some "u"
    annotations := { bold := true } }

/-- A 503 Notion client error (`internal_server_error`), as thrown by the
SDK for a 5xx response. -/
def e503demo : ErrObj := .mk true (some "internal_server_error") (some 503) false [] none

/-- A 401 Notion client error (`unauthorized`): a permanent failure. -/
def eAuthDemo : ErrObj := .mk true (some "unauthorized") (some 401) false [] none

/-- A three-page workspace: root "r" with child pages "c1" and "c2". -/
def loaderDemo : Loader := fun id =>
  if id = "r" then .ok ("R", ["c1", "c2"])
  else if id = "c1" then .ok ("C1", [])
  else if id = "c2" then .ok ("C2", [])
  else .error "object_not_found"

/-- A handler that fails on page "c1" only. -/
def handlerFailC1 : PageNode → Except String Unit := fun p =>
  if p.id = "c1" then .error "boom" else .ok ()

def handlerOk : PageNode → Except String Unit := fun _ => .ok ()

/-- A loader whose every lookup fails after the retry policy. -/
def loaderRootFails : Loader := fun _ => .error "HTTP 503 after 3 attempts"

/-- Value of a decimal digit string (verification helper: left inverse of
`natDec`). -/
def decodeDec (l : List Char) : Nat :=
  l.foldl (fun a c => 10 * a + (c.toNat - 48)) 0

/-- Two image blocks on one page whose captions both sanitize to "diagram"
and whose source URLs both end in `.png`. -/
def reqDiagram1 : AssetReq :=
  { id := "b1", url := "https://files.example.com/a/diagram.png",
    caption := some "diagram", type := .image }

def reqDiagram2 : AssetReq :=
  { id := "b2", url := "https://files.example.com/b/diagram.png",
    caption := some "diagram", type := .image }

/-- Whitespace-collapsed normal form (verification helper): every
whitespace character is a literal space and no two adjacent characters are
both whitespace. -/
def wsNormal : List Char → Bool
  | [] => true
  | [c] => !isWsChar c || c == ' '
  | a :: b :: t => (!isWsChar a || (a == ' ' && !isWsChar b)) && wsNormal (b :: t)

/-- Edge conditions under which re-sanitizing a sanitized path segment is
the identity: no leading or trailing whitespace and no trailing dot. -/
def segEdgeOk (s : String) : Bool :=
  (match s.data.head? with
   | some c => !isWsChar c
   | none => true) &&
  (match s.data.getLast? with
   | some c => !isWsChar c && c != '.'
   | none => true)

/-! ## Theorems -/

theorem mkdirRec_files (fs : FS) (d : String) : (mkdirRec fs d).files = fs.files := rfl

theorem fileExists_mkdirRec (fs : FS) (d p : String) :
    fileExists (mkdirRec fs d) p = fileExists fs p := rfl

theorem mem_dirs_mkdirRec (fs : FS) (d : String) : d ∈ (mkdirRec fs d).dirs := by
  unfold mkdirRec
  split
  · next h => simpa using h
  · exact List.mem_cons_self _ _

/-- C1: a page owns a directory named after itself (its directory segments
are its sanitized ancestor chain extended with its own sanitized name)
exactly when it has child pages or its ancestor path is empty; every other
page's directory segments are its parent's, so its Markdown file lands
directly in the parent's directory with no same-named folder. -/
theorem resolve_directory_ownership (baseDir : String) (page : PageNode) :
    ((resolve baseDir page).directorySegments =
        (sanitizeSegments (page.path ++ [page.title])).dropLast ++
          [(resolve baseDir page).fileBaseName] ↔
      (page.hasChildPages = true ∨ page.path = [])) ∧
    (¬(page.hasChildPages = true ∨ page.path = []) →
      (resolve baseDir page).directorySegments =
        (sanitizeSegments (page.path ++ [page.title])).dropLast ∧
      (resolve baseDir page).filePath =
        (if (sanitizeSegments (page.path ++ [page.title])).dropLast.length > 0 then
          joinPath baseDir (sanitizeSegments (page.path ++ [page.title])).dropLast
         else baseDir) ++ "/" ++ ((resolve baseDir page).fileBaseName ++ ".md")) := by
  have hcond : (page.hasChildPages || page.path.length == 0) = true ↔
      (page.hasChildPages = true ∨ page.path = []) := by
    simp [List.length_eq_zero]
  constructor
  · by_cases hb : (page.hasChildPages || page.path.length == 0) = true
    · simp only [resolve, hb, if_true]
      exact ⟨fun _ => hcond.mp hb, fun _ => trivial⟩
    · simp only [resolve, hb, if_false]
      constructor
      · intro h
        exact absurd (congrArg List.length h) (by simp)
      · intro h
        exact absurd (hcond.mpr h) hb
  · intro h
    have hb : (page.hasChildPages || page.path.length == 0) = false := by
      cases hv : (page.hasChildPages || page.path.length == 0) with
      | false => rfl
      | true => exact absurd (hcond.mp hv) h
    simp only [resolve, hb]
    exact ⟨rfl, rfl⟩

/-- C8 counterexample: an explicit root page titled "A" with no child pages
does not produce `A.md` at the export root; the exporter creates the
subdirectory `out/A` and writes `out/A/A.md` (the root always owns a
same-named directory). -/
theorem root_leaf_export_counterexample :
    (writePage { baseDir := "out", dryRun := false, force := false }
        { id := "id1", title := "A", path := [], hasChildPages := false }
        "# A" [] { files := [], dirs := [] }).1.files = [("out/A/A.md", "# A")] ∧
    (writePage { baseDir := "out", dryRun := false, force := false }
        { id := "id1", title := "A", path := [], hasChildPages := false }
        "# A" [] { files := [], dirs := [] }).1.dirs = ["out/A"] ∧
    "out/A.md" ∉ (writePage { baseDir := "out", dryRun := false, force := false }
        { id := "id1", title := "A", path := [], hasChildPages := false }
        "# A" [] { files := [], dirs := [] }).1.files.map Prod.fst := by
  decide

/-- C8 amended: for a traversal whose explicit root is a single page with no
child pages, exporting onto an empty target produces exactly one file,
`<T>/<T>.md`, inside the root-owned directory `<T>` (the sanitized title),
and that directory is the only one created. -/
theorem root_leaf_export_amended (base title id content : String) :
    (writePage { baseDir := base, dryRun := false, force := false }
        { id := id, title := title, path := [], hasChildPages := false }
        content [] { files := [], dirs := [] }).1.files =
      [(base ++ "/" ++ sanitizeSegment true title ++ "/" ++
          (sanitizeSegment true title ++ ".md"), content)] ∧
    (writePage { baseDir := base, dryRun := false, force := false }
        { id := id, title := title, path := [], hasChildPages := false }
        content [] { files := [], dirs := [] }).1.dirs =
      [base ++ "/" ++ sanitizeSegment true title] := by
  simp [writePage, resolve, sanitizeSegments, joinPath, mkdirRec, fileExists,
    writeFileFS, String.append_assoc]

/-- C2: with `force = false` and `dryRun = false`, when the resolved target
Markdown file already exists, `writePage` leaves every file (the target's
bytes and all asset files) unchanged and reports the skip. -/
theorem writePage_skip_no_overwrite (cfg : WriterConfig) (page : PageNode)
    (content : String) (assets : List AssetData) (fs : FS)
    (hforce : cfg.force = false) (hdry : cfg.dryRun = false)
    (hex : fileExists fs (resolve cfg.baseDir page).filePath = true) :
    (writePage cfg page content assets fs).1.files = fs.files ∧
    (writePage cfg page content assets fs).2 =
      ["File exists - skipping (use --force to overwrite)"] := by
  simp only [writePage, hdry, if_false, hforce, Bool.not_false, Bool.true_and,
    fileExists_mkdirRec, hex, if_true, mkdirRec_files, Bool.false_eq_true]
  refine ⟨?_, ?_⟩ <;> first | rfl | trivial

theorem writePage_skip_no_overwrite_witness :
    fileExists { files := [("out/A/A.md", "old")], dirs := [] }
        (resolve "out" { id := "id1", title := "A", path := [], hasChildPages := false }).filePath
      = true ∧
    (writePage { baseDir := "out", dryRun := false, force := false }
        { id := "id1", title := "A", path := [], hasChildPages := false }
        "# new" [{ localPath := "img/x.png", originalUrl := "u", data := "bytes" }]
        { files := [("out/A/A.md", "old")], dirs := [] }).1.files =
      [("out/A/A.md", "old")] := by
  refine ⟨by decide, ?_⟩
  exact (writePage_skip_no_overwrite
    { baseDir := "out", dryRun := false, force := false }
    { id := "id1", title := "A", path := [], hasChildPages := false }
    "# new" [{ localPath := "img/x.png", originalUrl := "u", data := "bytes" }]
    { files := [("out/A/A.md", "old")], dirs := [] } rfl rfl (by decide)).1

/-- C10: in normal mode with `force = false`, the target directory is
created before the existence check, so even a skipped write leaves the
page's directory behind: the skip is not free of filesystem mutation. -/
theorem writePage_skip_creates_directory (cfg : WriterConfig) (page : PageNode)
    (content : String) (assets : List AssetData) (fs : FS)
    (hforce : cfg.force = false) (hdry : cfg.dryRun = false)
    (hex : fileExists fs (resolve cfg.baseDir page).filePath = true) :
    (resolve cfg.baseDir page).directory ∈ (writePage cfg page content assets fs).1.dirs ∧
    ((resolve cfg.baseDir page).directory ∉ fs.dirs →
      (writePage cfg page content assets fs).1 ≠ fs) := by
  have hres : (writePage cfg page content assets fs).1 =
      mkdirRec fs (resolve cfg.baseDir page).directory := by
    simp only [writePage, hdry, if_false, hforce, Bool.not_false, Bool.true_and,
      fileExists_mkdirRec, hex, if_true, Bool.false_eq_true]
  constructor
  · rw [hres]; exact mem_dirs_mkdirRec fs _
  · intro hnot heq
    rw [hres] at heq
    have : (resolve cfg.baseDir page).directory ∈ fs.dirs := by
      have := mem_dirs_mkdirRec fs (resolve cfg.baseDir page).directory
      rwa [heq] at this
    exact hnot this

theorem writePage_skip_creates_directory_witness :
    fileExists { files := [("out/A/A.md", "old")], dirs := [] }
        (resolve "out" { id := "id1", title := "A", path := [], hasChildPages := false }).filePath
      = true ∧
    (resolve "out" { id := "id1", title := "A", path := [], hasChildPages := false }).directory ∈
      (writePage { baseDir := "out", dryRun := false, force := false }
        { id := "id1", title := "A", path := [], hasChildPages := false }
        "# new" [] { files := [("out/A/A.md", "old")], dirs := [] }).1.dirs := by
  refine ⟨by decide, ?_⟩
  exact (writePage_skip_creates_directory
    { baseDir := "out", dryRun := false, force := false }
    { id := "id1", title := "A", path := [], hasChildPages := false }
    "# new" [] { files := [("out/A/A.md", "old")], dirs := [] } rfl rfl (by decide)).1

/-- C3: under the retry helper, a call that keeps failing with a retryable
error (rate limit, 5xx, or a recognized transient network failure) is
retried up to 3 attempts with backoff sleeps of 500ms then 1000ms and the
error is raised after the third attempt; a call that fails with any other
error propagates it immediately, with no retry and no sleep. -/
theorem withRetries_policy :
    (∀ {α : Type} (op : Nat → Except ErrObj α) (e : ErrObj),
        (∀ n, op n = .error e) → isRetryableClass e = true →
        withRetries op 1 = (.error e, [500, 1000])) ∧
    (∀ {α : Type} (op : Nat → Except ErrObj α) (e : ErrObj),
        op 1 = .error e → isRetryableClass e = false →
        withRetries op 1 = (.error e, [])) := by
  constructor
  · intro α op e hop hr
    have h1 := hop 1
    have h2 := hop 2
    have h3 := hop 3
    simp [withRetries, h1, h2, h3, hr, MAX_RETRIES, retryDelay, INITIAL_DELAY_MS]
  · intro α op e hop hr
    simp [withRetries, hop, hr, MAX_RETRIES]

theorem withRetries_policy_witness :
    isRetryableClass e503demo = true ∧ isRetryableClass eAuthDemo = false ∧
    withRetries (fun _ => (.error e503demo : Except ErrObj Nat)) 1 =
      (.error e503demo, [500, 1000]) ∧
    withRetries (fun _ => (.error eAuthDemo : Except ErrObj Nat)) 1 =
      (.error eAuthDemo, []) := by
  refine ⟨by decide, by decide, ?_, ?_⟩
  · exact withRetries_policy.1 (fun _ => .error e503demo) e503demo (fun _ => rfl) (by decide)
  · exact withRetries_policy.2 (fun _ => .error eAuthDemo) eAuthDemo rfl (by decide)

/-- C6 counterexample: on a segment with plain text "t", a link target "u"
and the bold annotation, the renderer produces `**[t](u)**` — the
hyperlink is applied before the annotation wrapping — whereas the claimed
order (formatting first, hyperlink around the result) gives `[**t**](u)`. -/
theorem richText_order_counterexample :
    richTextItemToMarkdown segBoldLinkDemo ≠ richTextItemClaimed segBoldLinkDemo ∧
    richTextItemToMarkdown segBoldLinkDemo = "**[t](u)**" ∧
    richTextItemClaimed segBoldLinkDemo = "[**t**](u)" := by
  decide

/-- C6 amended: each segment renders its plain text, substitutes an
equation payload as `$...$`, wraps the result in a Markdown hyperlink when
a link target is present, and only then applies the annotation formatting
outside the link — backtick code first in precedence (suppressing the
others), otherwise bold, italic, strikethrough, underline in that order;
segments concatenate in document order with no separator. -/
theorem richText_render_amended :
    (∀ segment, richTextItemToMarkdown segment = richTextItemAmendedSpec segment) ∧
    (∀ segments, richTextArrayToMarkdown segments =
      String.join (segments.map richTextItemToMarkdown)) := by
  constructor
  · intro s
    rfl
  · intro segs
    cases segs with
    | nil => rfl
    | cons a t => rfl

theorem traverseLoop_nil (loader : Loader) (handler : PageNode → Except String Unit)
    (fuel : Nat) (st : TraverseState) : traverseLoop loader handler fuel [] st = st := by
  cases fuel <;> rfl

theorem traverseLoop_handler_agnostic :
    ∀ (fuel : Nat) (loader : Loader) (h1 h2 : PageNode → Except String Unit)
      (queue : List QueueItem) (st1 st2 : TraverseState),
      st1.visited = st2.visited → st1.loadErrors = st2.loadErrors →
      st1.handlerResults.map Prod.fst = st2.handlerResults.map Prod.fst →
      (traverseLoop loader h1 fuel queue st1).visited =
        (traverseLoop loader h2 fuel queue st2).visited ∧
      (traverseLoop loader h1 fuel queue st1).loadErrors =
        (traverseLoop loader h2 fuel queue st2).loadErrors ∧
      (traverseLoop loader h1 fuel queue st1).handlerResults.map Prod.fst =
        (traverseLoop loader h2 fuel queue st2).handlerResults.map Prod.fst := by
  intro fuel
  induction fuel with
  | zero => intro loader h1 h2 queue st1 st2 hv he hh; exact ⟨hv, he, hh⟩
  | succ fuel ih =>
    intro loader h1 h2 queue st1 st2 hv he hh
    cases queue with
    | nil => exact ⟨hv, he, hh⟩
    | cons current rest =>
      simp only [traverseLoop, hv]
      by_cases hc : st2.visited.contains current.id
      · simp only [hc, if_true]
        exact ih loader h1 h2 rest st1 st2 hv he hh
      · simp only [hc, if_false, Bool.false_eq_true]
        cases hl : loader current.id with
        | error e =>
          exact ih loader h1 h2 rest _ _ (by simp [hv]) (by simp [he]) (by simp [hh])
        | ok payload =>
          exact ih loader h1 h2 (rest ++ _) _ _ (by simp [hv]) (by simp [he]) (by simp [hh])

/-- C5 counterexample: with root "r" having child pages "c1" and "c2" and a
handler that rejects on "c1", the dequeue loop still visits and dispatches
the sibling "c2", but the `traverse` promise rejects instead of completing:
the handler failure is not caught at the dispatch boundary. -/
theorem traverse_handler_failure_counterexample :
    traverse loaderDemo handlerFailC1 "r" 5 = .error () ∧
    (traverseLoop loaderDemo handlerFailC1 5 [⟨"r", []⟩]
        { visited := [], loadErrors := [], handlerResults := [] }).visited =
      ["r", "c1", "c2"] ∧
    (traverseLoop loaderDemo handlerFailC1 5 [⟨"r", []⟩]
        { visited := [], loadErrors := [], handlerResults := [] }).handlerResults =
      [("r", .ok ()), ("c1", .error "boom"), ("c2", .ok ())] := by
  decide

/-- C5 amended: a handler failure does not affect traversal of siblings or
remaining queue items — the visited set, the logged load failures and the
sequence of dispatched page ids are independent of the handler — but the
failure is not caught at the dispatch boundary: the `traverse` promise
rejects (once the queue has drained) exactly when some dispatched handler
rejected. -/
theorem traverse_handler_failure_amended :
    (∀ (loader : Loader) (h1 h2 : PageNode → Except String Unit) (fuel : Nat)
        (queue : List QueueItem) (st1 st2 : TraverseState),
        st1.visited = st2.visited → st1.loadErrors = st2.loadErrors →
        st1.handlerResults.map Prod.fst = st2.handlerResults.map Prod.fst →
        (traverseLoop loader h1 fuel queue st1).visited =
          (traverseLoop loader h2 fuel queue st2).visited ∧
        (traverseLoop loader h1 fuel queue st1).loadErrors =
          (traverseLoop loader h2 fuel queue st2).loadErrors ∧
        (traverseLoop loader h1 fuel queue st1).handlerResults.map Prod.fst =
          (traverseLoop loader h2 fuel queue st2).handlerResults.map Prod.fst) ∧
    (∀ (loader : Loader) (handler : PageNode → Except String Unit)
        (root : String) (fuel : Nat),
        traverse loader handler root fuel = .error () ↔
          ∃ p e, (p, Except.error e) ∈
            (traverseLoop loader handler fuel [⟨normalizeId root, []⟩]
              { visited := [], loadErrors := [], handlerResults := [] }).handlerResults) := by
  constructor
  · intro loader h1 h2 fuel queue st1 st2 hv he hh
    exact traverseLoop_handler_agnostic fuel loader h1 h2 queue st1 st2 hv he hh
  · intro loader handler root fuel
    unfold traverse
    by_cases ha :
        (traverseLoop loader handler fuel [⟨normalizeId root, []⟩]
          { visited := [], loadErrors := [], handlerResults := [] }).handlerResults.any
          (fun r => exceptIsError r.2)
    · simp only [ha, if_true]
      constructor
      · intro _
        obtain ⟨r, hr, hp⟩ := List.any_eq_true.mp ha
        obtain ⟨p, res⟩ := r
        cases res with
        | error e => exact ⟨p, e, hr⟩
        | ok v => simp [exceptIsError] at hp
      · intro _; trivial
    · simp only [ha, if_false, Bool.false_eq_true]
      constructor
      · intro h; cases h
      · rintro ⟨p, e, hm⟩
        exact absurd (List.any_eq_true.mpr ⟨(p, .error e), hm, rfl⟩) ha

theorem traverse_handler_failure_amended_witness :
    (traverseLoop loaderDemo handlerOk 5 [⟨"r", []⟩]
        { visited := [], loadErrors := [], handlerResults := [] }).visited =
      (traverseLoop loaderDemo handlerFailC1 5 [⟨"r", []⟩]
        { visited := [], loadErrors := [], handlerResults := [] }).visited ∧
    traverse loaderDemo handlerFailC1 "r" 5 = .error () := by
  constructor
  · exact (traverse_handler_failure_amended.1 loaderDemo handlerOk handlerFailC1 5
      [⟨"r", []⟩] { visited := [], loadErrors := [], handlerResults := [] }
      { visited := [], loadErrors := [], handlerResults := [] } rfl rfl rfl).1
  · exact (traverse_handler_failure_amended.2 loaderDemo handlerFailC1 "r" 5).mpr
      ⟨"c1", "boom", by decide⟩

/-- C9 counterexample: when the root page lookup fails (e.g. after retry
exhaustion on a 503), the failure is caught at the same dispatch boundary
as any other page: it is logged with the page id and reason and the run
completes normally — `traverse` resolves rather than aborting. -/
theorem traverse_root_failure_counterexample :
    traverse loaderRootFails handlerOk "r" 3 =
      .ok { visited := ["r"], loadErrors := [("r", "HTTP 503 after 3 attempts")],
            handlerResults := [] } := by
  decide

/-- C9 amended: exhaustion of retries on the root page lookup is not fatal:
the error is caught in the dequeue loop, logged with the root id and the
reason, and the traverse promise resolves with an otherwise empty run (no
page dispatched).  The only failures that reject the returned promise are
handler rejections. -/
theorem traverse_root_failure_amended (loader : Loader)
    (handler : PageNode → Except String Unit) (root : String) (fuel : Nat) (e : String)
    (hfuel : 1 ≤ fuel) (hroot : loader (normalizeId root) = .error e) :
    traverse loader handler root fuel =
      .ok { visited := [normalizeId root], loadErrors := [(normalizeId root, e)],
            handlerResults := [] } := by
  obtain ⟨f, rfl⟩ : ∃ f, fuel = f + 1 := ⟨fuel - 1, by omega⟩
  simp [traverse, traverseLoop, hroot, traverseLoop_nil, exceptIsError]

theorem traverse_root_failure_amended_witness :
    loaderRootFails (normalizeId "r") = .error "HTTP 503 after 3 attempts" ∧
    traverse loaderRootFails handlerOk "r" 3 =
      .ok { visited := [normalizeId "r"],
            loadErrors := [(normalizeId "r", "HTTP 503 after 3 attempts")],
            handlerResults := [] } := by
  exact ⟨rfl, traverse_root_failure_amended loaderRootFails handlerOk "r" 3
    "HTTP 503 after 3 attempts" (by omega) rfl⟩

theorem digitChar_toNat (d : Nat) (h : d < 10) : (digitChar d).toNat = 48 + d := by
  interval_cases d <;> rfl

theorem decodeDec_decDigits : ∀ (fuel n : Nat), n < fuel → decodeDec (decDigits fuel n) = n := by
  intro fuel
  induction fuel with
  | zero => intro n h; omega
  | succ f ih =>
    intro n h
    unfold decDigits
    by_cases h10 : n < 10
    · simp only [h10, if_true]
      simp [decodeDec, digitChar_toNat n h10]
    · simp only [h10, if_false]
      have hdivlt : n / 10 < n := Nat.div_lt_self (by omega) (by omega)
      have hdiv : n / 10 < f := by omega
      have hmod : n % 10 < 10 := Nat.mod_lt _ (by omega)
      have hrec := ih (n / 10) hdiv
      simp only [decodeDec, List.foldl_append] at *
      simp [hrec, digitChar_toNat _ hmod]
      omega

theorem stringMk_inj {la lb : List Char} (h : String.mk la = String.mk lb) : la = lb := by
  injection h

theorem natDec_inj {i j : Nat} (h : natDec i = natDec j) : i = j := by
  have hd : decDigits (i + 1) i = decDigits (j + 1) j := by
    have h' := h
    unfold natDec at h'
    exact stringMk_inj h'
  have := congrArg decodeDec hd
  rwa [decodeDec_decDigits _ _ (Nat.lt_succ_self i),
    decodeDec_decDigits _ _ (Nat.lt_succ_self j)] at this

theorem mkIndexed_inj (name ext : String) {i j : Nat}
    (h : mkIndexed name ext i = mkIndexed name ext j) : i = j := by
  unfold mkIndexed at h
  have hdata := congrArg String.data h
  simp only [String.data_append] at hdata
  have h1 : name.data ++ "-".data ++ (natDec i).data =
      name.data ++ "-".data ++ (natDec j).data := List.append_cancel_right hdata
  have h2 : (natDec i).data = (natDec j).data := List.append_cancel_left h1
  exact natDec_inj (congrArg String.mk h2)

theorem countP_lt_of_mem {α : Type} {l : List α} {c : α} {pa q : α → Bool}
    (hc : c ∈ l) (hpc : pa c = false) (hsub : ∀ s, pa s = true → q s = true)
    (hqc : q c = true) : l.countP pa < l.countP q := by
  induction l with
  | nil => cases hc
  | cons a t ih =>
    rw [List.countP_cons, List.countP_cons]
    rcases List.mem_cons.mp hc with rfl | hct
    · have hle := List.countP_mono_left (l := t) (fun s _ hs => hsub s hs)
      simp [hpc, hqc]
      omega
    · have hlt := ih hct
      by_cases hpa : pa a = true
      · have hq : q a = true := hsub a hpa
        rw [if_pos hpa, if_pos hq]
        omega
      · simp only [Bool.not_eq_true] at hpa
        rw [if_neg (by simp [hpa])]
        split <;> omega

theorem searchFresh_fresh (name ext : String) (used : List String) :
    ∀ (fuel i : Nat),
      used.countP
          (fun s => decide (s ∈ (List.range fuel).map (fun k => mkIndexed name ext (i + k))))
        < fuel →
      mkIndexed name ext (searchFresh name ext used fuel i) ∉ used := by
  intro fuel
  induction fuel with
  | zero => intro i h; omega
  | succ f ih =>
    intro i h
    unfold searchFresh
    by_cases hm : mkIndexed name ext i ∈ used
    · simp only [hm, if_true]
      refine ih (i + 1) ?_
      have hkey : used.countP
            (fun s => decide (s ∈ (List.range f).map (fun k => mkIndexed name ext (i + 1 + k))))
          < used.countP
            (fun s => decide (s ∈ (List.range (f + 1)).map (fun k => mkIndexed name ext (i + k)))) := by
        refine countP_lt_of_mem hm ?_ ?_ ?_
        · simp only [decide_eq_false_iff_not, List.mem_map, not_exists]
          rintro k ⟨hk, hkeq⟩
          have := mkIndexed_inj name ext hkeq.symm
          omega
        · intro s hs
          simp only [decide_eq_true_eq, List.mem_map] at hs ⊢
          obtain ⟨k, hk, rfl⟩ := hs
          exact ⟨k + 1, by simpa using Nat.succ_lt_succ (List.mem_range.mp hk), by ring_nf⟩
        · simp only [decide_eq_true_eq, List.mem_map]
          exact ⟨0, by simp, by simp⟩
      omega
    · simp [hm]

theorem uniqueFileName_fresh (candidate : String) (used : List String) :
    uniqueFileName candidate used ∉ used := by
  unfold uniqueFileName
  by_cases hm : candidate ∈ used
  · simp only [hm, if_true]
    refine searchFresh_fresh _ _ used (used.length + 1) 2 ?_
    have := List.countP_le_length
      (fun s => decide (s ∈ (List.range (used.length + 1)).map
        (fun k => mkIndexed (splitExtension candidate).1 (splitExtension candidate).2 (2 + k))))
      (l := used)
    omega
  · simp [hm]

theorem string_append_left_cancel {a b c : String} (h : a ++ b = a ++ c) : b = c := by
  have hdata := congrArg String.data h
  simp only [String.data_append] at hdata
  exact congrArg String.mk (List.append_cancel_left hdata)

theorem renderAssets_invariant :
    ∀ (reqs : List AssetReq) (acc : RenderAcc),
      ((acc.assets.map (fun p => p.localPath)).Nodup ∧
        ∀ pl ∈ acc.assets, ∃ f ∈ acc.usedAssetNames, pl.localPath = "img/" ++ f) →
      (((reqs.foldl createAsset acc).assets.map (fun p => p.localPath)).Nodup ∧
        ∀ pl ∈ (reqs.foldl createAsset acc).assets,
          ∃ f ∈ (reqs.foldl createAsset acc).usedAssetNames, pl.localPath = "img/" ++ f) := by
  intro reqs
  induction reqs with
  | nil => intro acc h; exact h
  | cons o rest ih =>
    intro acc h
    rw [List.foldl_cons]
    refine ih (createAsset acc o) ?_
    obtain ⟨hnd, hsub⟩ := h
    have hfresh :
        uniqueFileName
            (sanitizeFileName ((o.caption).getD o.id) ++ guessExtension o.url o.type)
            acc.usedAssetNames ∉ acc.usedAssetNames :=
      uniqueFileName_fresh _ _
    constructor
    · simp only [createAsset, List.map_append, List.map_cons, List.map_nil]
      rw [List.nodup_append]
      refine ⟨hnd, List.nodup_singleton _, ?_⟩
      intro x hx hx1
      simp only [List.mem_singleton] at hx1
      subst hx1
      obtain ⟨pl, hpl, hple⟩ := List.mem_map.mp hx
      obtain ⟨f, hf, hfeq⟩ := hsub pl hpl
      rw [hfeq] at hple
      have := string_append_left_cancel hple
      rw [this] at hf
      exact hfresh hf
    · intro pl hpl
      simp only [createAsset, List.mem_append, List.mem_singleton] at hpl
      rcases hpl with hpl | rfl
      · obtain ⟨f, hf, hfeq⟩ := hsub pl hpl
        exact ⟨f, by simp [createAsset, hf], hfeq⟩
      · exact ⟨_, by simp [createAsset], rfl⟩

/-- C4: within one render pass, the `localPath` values of the produced
asset plans are pairwise distinct; in particular two media blocks whose
sanitized base name is "diagram" and whose extension is ".png" receive
`diagram.png` and `diagram-2.png` (an incrementing numeric suffix before
the extension). -/
theorem renderAssets_localPath_nodup :
    (∀ reqs : List AssetReq,
        ((renderAssets reqs).assets.map (fun p => p.localPath)).Nodup) ∧
    (renderAssets [reqDiagram1, reqDiagram2]).assets.map (fun p => p.localPath) =
      ["img/diagram.png", "img/diagram-2.png"] := by
  constructor
  · intro reqs
    exact (renderAssets_invariant reqs { usedAssetNames := [], assets := [] }
      ⟨List.nodup_nil, by intro pl h; cases h⟩).1
  · decide

theorem replaceRunsGo_true_eq (p : Char → Bool) (rep : Char) :
    ∀ l : List Char, replaceRunsGo p rep true l = replaceRunsGo p rep false (l.dropWhile p) := by
  intro l
  induction l with
  | nil => rfl
  | cons c cs ih =>
    by_cases hc : p c
    · simp only [replaceRunsGo, hc, if_true, List.dropWhile_cons_of_pos hc]
      exact ih
    · simp only [replaceRunsGo, hc, if_false,
        List.dropWhile_cons_of_neg hc, Bool.false_eq_true]

theorem mem_replaceRunsGo_subset (p : Char → Bool) (rep : Char) :
    ∀ (b : Bool) (l : List Char) (c : Char),
      c ∈ replaceRunsGo p rep b l → c = rep ∨ c ∈ l := by
  intro b l
  induction l generalizing b with
  | nil => intro c h; cases h
  | cons a t ih =>
    intro c h
    by_cases ha : p a
    · cases b with
      | true =>
        simp only [replaceRunsGo, ha, if_true] at h
        rcases ih true c h with h' | h'
        · exact Or.inl h'
        · exact Or.inr (List.mem_cons_of_mem a h')
      | false =>
        simp only [replaceRunsGo, ha, if_true] at h
        rcases List.mem_cons.mp h with rfl | h'
        · exact Or.inl rfl
        · rcases ih true c h' with h'' | h''
          · exact Or.inl h''
          · exact Or.inr (List.mem_cons_of_mem a h'')
    · simp only [replaceRunsGo, ha, if_false, Bool.false_eq_true] at h
      rcases List.mem_cons.mp h with rfl | h'
      · exact Or.inr (List.mem_cons_self _ _)
      · rcases ih false c h' with h'' | h''
        · exact Or.inl h''
        · exact Or.inr (List.mem_cons_of_mem a h'')

theorem mem_replaceRunsGo_class (p : Char → Bool) (rep : Char) (hrep : p rep = false) :
    ∀ (b : Bool) (l : List Char) (c : Char), c ∈ replaceRunsGo p rep b l → p c = false := by
  intro b l
  induction l generalizing b with
  | nil => intro c h; cases h
  | cons a t ih =>
    intro c h
    by_cases ha : p a
    · cases b with
      | true =>
        simp only [replaceRunsGo, ha, if_true] at h
        exact ih true c h
      | false =>
        simp only [replaceRunsGo, ha, if_true] at h
        rcases List.mem_cons.mp h with rfl | h'
        · exact hrep
        · exact ih true c h'
    · simp only [replaceRunsGo, ha, if_false, Bool.false_eq_true] at h
      rcases List.mem_cons.mp h with rfl | h'
      · exact Bool.eq_false_iff.mpr ha
      · exact ih false c h'

theorem replaceRunsGo_false_id (p : Char → Bool) (rep : Char) :
    ∀ l : List Char, (∀ c ∈ l, p c = false) → replaceRunsGo p rep false l = l := by
  intro l
  induction l with
  | nil => intro _; rfl
  | cons a t ih =>
    intro h
    have ha : p a = false := h a (List.mem_cons_self _ _)
    simp only [replaceRunsGo, ha, if_false, Bool.false_eq_true]
    rw [ih (fun c hc => h c (List.mem_cons_of_mem a hc))]

theorem dropWhile_head_id (p : Char → Bool) (l : List Char)
    (h : ∀ c, l.head? = some c → p c = false) : l.dropWhile p = l := by
  cases l with
  | nil => rfl
  | cons a t =>
    have := h a rfl
    simp [List.dropWhile_cons, this]

theorem head?_dropWhile_false (p : Char → Bool) :
    ∀ (l : List Char) (c : Char), (l.dropWhile p).head? = some c → p c = false := by
  intro l
  induction l with
  | nil => intro c h; cases h
  | cons a t ih =>
    intro c h
    by_cases ha : p a
    · rw [List.dropWhile_cons_of_pos ha] at h
      exact ih c h
    · rw [List.dropWhile_cons_of_neg ha] at h
      cases h
      exact Bool.eq_false_iff.mpr ha

theorem getLast?_dropWhile_ne_nil (p : Char → Bool) :
    ∀ l : List Char, l.dropWhile p ≠ [] → (l.dropWhile p).getLast? = l.getLast? := by
  intro l
  induction l with
  | nil => intro h; cases h rfl
  | cons a t ih =>
    intro h
    by_cases ha : p a
    · rw [List.dropWhile_cons_of_pos ha] at h ⊢
      rw [ih h]
      cases t with
      | nil => simp [List.dropWhile] at h
      | cons b t2 => rw [List.getLast?_cons_cons]
    · rw [List.dropWhile_cons_of_neg ha]

theorem trimChars_id (l : List Char)
    (hh : ∀ c, l.head? = some c → isWsChar c = false)
    (hl : ∀ c, l.getLast? = some c → isWsChar c = false) : trimChars l = l := by
  unfold trimChars
  rw [dropWhile_head_id _ _ hh]
  rw [dropWhile_head_id _ _ (by
    intro c hc
    rw [List.head?_reverse] at hc
    exact hl c hc)]
  exact List.reverse_reverse l

theorem revDrop_id (q : Char → Bool) (l : List Char)
    (h : ∀ c, l.getLast? = some c → q c = false) :
    (l.reverse.dropWhile q).reverse = l := by
  rw [dropWhile_head_id _ _ (by
    intro c hc
    rw [List.head?_reverse] at hc
    exact h c hc)]
  exact List.reverse_reverse l

theorem revDrop_decomp (q : Char → Bool) (l : List Char) :
    l = (l.reverse.dropWhile q).reverse ++ (l.reverse.takeWhile q).reverse := by
  have h := List.takeWhile_append_dropWhile (p := q) (l := l.reverse)
  have h2 := congrArg List.reverse h
  rw [List.reverse_append, List.reverse_reverse] at h2
  exact h2.symm

theorem mem_revDrop (q : Char → Bool) (l : List Char) (c : Char)
    (h : c ∈ (l.reverse.dropWhile q).reverse) : c ∈ l := by
  rw [List.mem_reverse] at h
  have := (List.dropWhile_sublist (l := l.reverse) (p := q)).subset h
  rwa [List.mem_reverse] at this

theorem getLast?_revDrop_false (q : Char → Bool) (l : List Char) (c : Char)
    (h : ((l.reverse.dropWhile q).reverse).getLast? = some c) : q c = false := by
  rw [← List.head?_reverse, List.reverse_reverse] at h
  exact head?_dropWhile_false q _ c h

theorem head?_revDrop_false (q : Char → Bool) (l : List Char) (c : Char)
    (hnil : ∀ e, l.reverse.dropWhile q ≠ [] → l.head? = some e → q e = false)
    (h : ((l.reverse.dropWhile q).reverse).head? = some c) : q c = false := by
  rw [List.head?_reverse] at h
  have hne : l.reverse.dropWhile q ≠ [] := by
    intro hcontra
    rw [hcontra] at h
    cases h
  rw [getLast?_dropWhile_ne_nil q l.reverse hne] at h
  rw [List.getLast?_reverse] at h
  exact hnil c hne h

theorem replaceRunsGo_cons_pos (p : Char → Bool) (rep : Char) (c : Char) (cs : List Char)
    (hc : p c = true) :
    replaceRunsGo p rep false (c :: cs) = rep :: replaceRunsGo p rep false (cs.dropWhile p) := by
  simp only [replaceRunsGo, hc, if_true, Bool.false_eq_true, if_false]
  rw [replaceRunsGo_true_eq]

theorem replaceRunsGo_cons_neg (p : Char → Bool) (rep : Char) (c : Char) (cs : List Char)
    (hc : p c = false) :
    replaceRunsGo p rep false (c :: cs) = c :: replaceRunsGo p rep false cs := by
  simp only [replaceRunsGo, hc, Bool.false_eq_true, if_false]

theorem wsNormal_tail (a : Char) (l : List Char) (h : wsNormal (a :: l) = true) :
    wsNormal l = true := by
  cases l with
  | nil => rfl
  | cons b t =>
    unfold wsNormal at h
    rw [Bool.and_eq_true] at h
    exact h.2

theorem wsNormal_cons_not_ws (a : Char) (l : List Char) (ha : isWsChar a = false)
    (hl : wsNormal l = true) : wsNormal (a :: l) = true := by
  cases l with
  | nil => simp [wsNormal, ha]
  | cons b t =>
    unfold wsNormal
    rw [Bool.and_eq_true]
    exact ⟨by simp [ha], hl⟩

theorem wsNormal_cons_space (l : List Char)
    (h : ∀ b, l.head? = some b → isWsChar b = false)
    (hl : wsNormal l = true) : wsNormal (' ' :: l) = true := by
  cases l with
  | nil => decide
  | cons b t =>
    have hb := h b rfl
    unfold wsNormal
    rw [Bool.and_eq_true]
    exact ⟨by simp [hb], hl⟩

theorem head?_replaceRunsGo_false (p : Char → Bool) (rep : Char) (l : List Char) :
    (replaceRunsGo p rep false l).head? = l.head?.map (fun c => if p c then rep else c) := by
  cases l with
  | nil => rfl
  | cons a t =>
    by_cases ha : p a
    · simp [replaceRunsGo, ha]
    · simp [replaceRunsGo, ha]

theorem wsNormal_collapse_aux :
    ∀ (n : Nat) (l : List Char), l.length ≤ n →
      wsNormal (replaceRunsGo isWsChar ' ' false l) = true := by
  intro n
  induction n with
  | zero =>
    intro l hl
    have : l = [] := List.length_eq_zero.mp (Nat.le_zero.mp hl)
    subst this
    rfl
  | succ n ih =>
    intro l hl
    cases l with
    | nil => rfl
    | cons c cs =>
      by_cases hc : isWsChar c
      · rw [replaceRunsGo_cons_pos _ _ _ _ hc]
        refine wsNormal_cons_space _ ?_ ?_
        · intro b hb
          rw [head?_replaceRunsGo_false] at hb
          cases hh : (cs.dropWhile isWsChar).head? with
          | none => rw [hh] at hb; cases hb
          | some d =>
            rw [hh] at hb
            have hd := head?_dropWhile_false isWsChar cs d hh
            simp only [Option.map, hd, if_false, Option.some.injEq,
              Bool.false_eq_true] at hb
            rw [← hb]
            exact hd
        · refine ih _ ?_
          have h1 : (cs.dropWhile isWsChar).length ≤ cs.length :=
            (List.dropWhile_sublist (l := cs) (p := isWsChar)).length_le
          simp only [List.length_cons] at hl
          omega
      · rw [replaceRunsGo_cons_neg _ _ _ _ (Bool.eq_false_iff.mpr hc)]
        refine wsNormal_cons_not_ws _ _ (Bool.eq_false_iff.mpr hc) ?_
        refine ih _ ?_
        simp only [List.length_cons] at hl
        omega

theorem wsNormal_collapse (l : List Char) :
    wsNormal (replaceRunsGo isWsChar ' ' false l) = true :=
  wsNormal_collapse_aux l.length l (Nat.le_refl _)

theorem wsNormal_collapse_fix :
    ∀ l : List Char, wsNormal l = true → replaceRunsGo isWsChar ' ' false l = l := by
  intro l
  induction l with
  | nil => intro _; rfl
  | cons a t ih =>
    intro h
    by_cases ha : isWsChar a
    · cases t with
      | nil =>
        have haSp : a = ' ' := by
          unfold wsNormal at h
          simp only [ha] at h
          simpa using h
        subst haSp
        rfl
      | cons b t2 =>
        unfold wsNormal at h
        rw [Bool.and_eq_true] at h
        obtain ⟨hpair, hrest⟩ := h
        simp only [ha, Bool.not_true, Bool.false_or, Bool.and_eq_true, beq_iff_eq,
          Bool.not_eq_true] at hpair
        obtain ⟨haSp, hb⟩ := hpair
        subst haSp
        have hrec := ih hrest
        rw [replaceRunsGo_cons_pos _ _ _ _ ha,
          List.dropWhile_cons_of_neg (by simpa using hb), hrec]
    · rw [replaceRunsGo_cons_neg _ _ _ _ (Bool.eq_false_iff.mpr ha),
        ih (wsNormal_tail a t h)]

theorem wsNormal_append_left :
    ∀ xs ys : List Char, wsNormal (xs ++ ys) = true → wsNormal xs = true := by
  intro xs
  induction xs with
  | nil => intro ys _; rfl
  | cons a t ih =>
    intro ys h
    cases t with
    | nil =>
      cases ys with
      | nil => simpa using h
      | cons y ys2 =>
        simp only [List.cons_append, List.nil_append] at h
        unfold wsNormal at h
        rw [Bool.and_eq_true] at h
        obtain ⟨hpair, _⟩ := h
        unfold wsNormal
        cases hws : isWsChar a with
        | false => simp
        | true =>
          simp only [hws, Bool.not_true, Bool.false_or] at hpair ⊢
          rw [Bool.and_eq_true] at hpair
          simp [hpair.1]
    | cons b t2 =>
      simp only [List.cons_append] at h
      have h' : wsNormal (a :: b :: (t2 ++ ys)) = true := by
        simpa using h
      unfold wsNormal at h'
      rw [Bool.and_eq_true] at h'
      obtain ⟨hpair, hrest⟩ := h'
      unfold wsNormal
      rw [Bool.and_eq_true]
      refine ⟨hpair, ?_⟩
      exact ih ys (by simpa using hrest)

theorem wsNormal_dropWhile (q : Char → Bool) :
    ∀ l : List Char, wsNormal l = true → wsNormal (l.dropWhile q) = true := by
  intro l
  induction l with
  | nil => intro _; rfl
  | cons a t ih =>
    intro h
    by_cases ha : q a
    · rw [List.dropWhile_cons_of_pos ha]
      exact ih (wsNormal_tail a t h)
    · rw [List.dropWhile_cons_of_neg ha]
      exact h

theorem wsNormal_revDrop (q : Char → Bool) (l : List Char) (h : wsNormal l = true) :
    wsNormal ((l.reverse.dropWhile q).reverse) = true := by
  have hdec := revDrop_decomp q l
  rw [hdec] at h
  exact wsNormal_append_left _ _ h

theorem sanitizeSegment_fix (isLast : Bool) (s : String)
    (h : segEdgeOk (sanitizeSegment isLast s) = true) :
    sanitizeSegment isLast (sanitizeSegment isLast s) = sanitizeSegment isLast s := by
  have hdef : sanitizeSegment isLast s =
      (if (stripEdgeHyphens (stripTrailingDots (replaceRuns isWsChar ' '
          (replaceRuns isIllegalChar '-' (trimChars s.data))))).isEmpty
       then (if isLast then "Untitled Page" else "Untitled")
       else String.mk (stripEdgeHyphens (stripTrailingDots (replaceRuns isWsChar ' '
          (replaceRuns isIllegalChar '-' (trimChars s.data)))))) := rfl
  set t1 := replaceRuns isIllegalChar '-' (trimChars s.data) with ht1
  set t2 := replaceRuns isWsChar ' ' t1 with ht2
  set t3 := stripTrailingDots t2 with ht3
  set t4 := stripEdgeHyphens t3 with ht4
  by_cases hE : t4.isEmpty
  · have hfall : sanitizeSegment isLast s = (if isLast then "Untitled Page" else "Untitled") := by
      rw [hdef, if_pos hE]
    rw [hfall]
    cases isLast with
    | true => simp only [if_true]; decide
    | false => simp only [Bool.false_eq_true, if_false]; decide
  · have hts : sanitizeSegment isLast s = String.mk t4 := by
      rw [hdef, if_neg hE]
    rw [hts] at h ⊢
    -- edge facts from the hypothesis
    have hHeadWs : ∀ c, t4.head? = some c → isWsChar c = false := by
      intro c hc
      unfold segEdgeOk at h
      rw [Bool.and_eq_true] at h
      have h1 := h.1
      simp only [String.data] at h1
      rw [hc] at h1
      simpa using h1
    have hLastWs : ∀ c, t4.getLast? = some c → isWsChar c = false := by
      intro c hc
      unfold segEdgeOk at h
      rw [Bool.and_eq_true] at h
      have h2 := h.2
      simp only [String.data] at h2
      rw [hc] at h2
      rw [Bool.and_eq_true] at h2
      simpa using h2.1
    have hLastDot : ∀ c, t4.getLast? = some c → c ≠ '.' := by
      intro c hc
      unfold segEdgeOk at h
      rw [Bool.and_eq_true] at h
      have h2 := h.2
      simp only [String.data] at h2
      rw [hc] at h2
      rw [Bool.and_eq_true] at h2
      simpa using h2.2
    -- structural invariants of the sanitize output
    have hmem3 : ∀ c ∈ t4, c ∈ t3 := by
      intro c hc
      rw [ht4] at hc
      unfold stripEdgeHyphens at hc
      have hX := mem_revDrop _ _ c hc
      exact (List.dropWhile_sublist (l := t3) _).subset hX
    have hmem2 : ∀ c ∈ t4, c ∈ t2 := by
      intro c hc
      have h3 := hmem3 c hc
      rw [ht3] at h3
      unfold stripTrailingDots at h3
      exact mem_revDrop _ _ c h3
    have hIll : ∀ c ∈ t4, isIllegalChar c = false := by
      intro c hc
      have h2 := hmem2 c hc
      rw [ht2] at h2
      unfold replaceRuns at h2
      rcases mem_replaceRunsGo_subset _ _ _ _ _ h2 with rfl | h1
      · decide
      · rw [ht1] at h1
        unfold replaceRuns at h1
        exact mem_replaceRunsGo_class isIllegalChar '-' (by decide) _ _ _ h1
    have hWs4 : wsNormal t4 = true := by
      have hw2 : wsNormal t2 = true := by
        rw [ht2]; unfold replaceRuns; exact wsNormal_collapse t1
      have hw3 : wsNormal t3 = true := by
        rw [ht3]; unfold stripTrailingDots; exact wsNormal_revDrop _ t2 hw2
      rw [ht4]; unfold stripEdgeHyphens
      exact wsNormal_revDrop _ _ (wsNormal_dropWhile _ t3 hw3)
    have hHeadHy : ∀ c, t4.head? = some c → (c = '-' → False) := by
      intro c hc hceq
      rw [ht4] at hc
      unfold stripEdgeHyphens at hc
      have := head?_revDrop_false _ (t3.dropWhile (· = '-')) c
        (fun e _ he => head?_dropWhile_false _ t3 e he) hc
      subst hceq
      simp at this
    have hLastHy : ∀ c, t4.getLast? = some c → (c = '-' → False) := by
      intro c hc hceq
      rw [ht4] at hc
      unfold stripEdgeHyphens at hc
      have := getLast?_revDrop_false _ (t3.dropWhile (· = '-')) c hc
      subst hceq
      simp at this
    -- the second application is stage-by-stage the identity
    have e0 : trimChars (String.mk t4).data = t4 :=
      trimChars_id t4 hHeadWs hLastWs
    have e1 : replaceRuns isIllegalChar '-' t4 = t4 :=
      replaceRunsGo_false_id _ _ t4 hIll
    have e2 : replaceRuns isWsChar ' ' t4 = t4 :=
      wsNormal_collapse_fix t4 hWs4
    have e3 : stripTrailingDots t4 = t4 := by
      unfold stripTrailingDots
      refine revDrop_id _ t4 ?_
      intro c hc
      simpa using hLastDot c hc
    have e4 : stripEdgeHyphens t4 = t4 := by
      unfold stripEdgeHyphens
      rw [dropWhile_head_id _ t4 (by
        intro c hc
        simpa using hHeadHy c hc)]
      refine revDrop_id _ t4 ?_
      intro c hc
      simpa using hLastHy c hc
    show (if (stripEdgeHyphens (stripTrailingDots (replaceRuns isWsChar ' '
        (replaceRuns isIllegalChar '-' (trimChars (String.mk t4).data))))).isEmpty
      then (if isLast then "Untitled Page" else "Untitled")
      else String.mk (stripEdgeHyphens (stripTrailingDots (replaceRuns isWsChar ' '
        (replaceRuns isIllegalChar '-' (trimChars (String.mk t4).data)))))) = String.mk t4
    rw [e0, e1, e2, e3, e4, if_neg hE]

theorem sanitizeSegments_ne_nil (l : List String) (h : l ≠ []) :
    sanitizeSegments l ≠ [] := by
  cases l with
  | nil => cases h rfl
  | cons s t => cases t <;> simp [sanitizeSegments]

theorem sanitizeSegments_cons_of_ne (s : String) (l : List String) (h : l ≠ []) :
    sanitizeSegments (s :: l) = sanitizeSegment false s :: sanitizeSegments l := by
  cases l with
  | nil => cases h rfl
  | cons s2 t => rfl

/-- C7 counterexample: the segment "a -" sanitizes to "a " (stripping the
trailing hyphen exposes a trailing space), and sanitizing "a " again gives
"a": the Path Planner's sanitization is not idempotent. -/
theorem sanitize_not_idempotent_counterexample :
    sanitizeSegments ["a -"] = ["a "] ∧
    sanitizeSegments (sanitizeSegments ["a -"]) = ["a"] ∧
    sanitizeSegments (sanitizeSegments ["a -"]) ≠ sanitizeSegments ["a -"] := by
  decide

/-- C7 amended: sanitization is idempotent on every segment list whose
sanitized form has no leading/trailing whitespace and no trailing dot in
any segment (stripping trailing dots or edge hyphens can expose such edge
characters, and only then does a second pass differ). -/
theorem sanitizeSegments_idempotent_amended (segs : List String)
    (h : ∀ t ∈ sanitizeSegments segs, segEdgeOk t = true) :
    sanitizeSegments (sanitizeSegments segs) = sanitizeSegments segs := by
  induction segs with
  | nil => rfl
  | cons s rest ih =>
    cases rest with
    | nil =>
      simp only [sanitizeSegments]
      rw [sanitizeSegment_fix true s (h _ (by simp [sanitizeSegments]))]
    | cons s2 rest2 =>
      rw [sanitizeSegments_cons_of_ne s _ (by simp)] at h ⊢
      rw [sanitizeSegments_cons_of_ne _ _
        (sanitizeSegments_ne_nil _ (by simp))]
      rw [sanitizeSegment_fix false s (h _ (List.mem_cons_self _ _))]
      rw [ih (fun t ht => h t (List.mem_cons_of_mem _ ht))]

theorem sanitizeSegments_idempotent_amended_witness :
    (∀ t ∈ sanitizeSegments ["My: Page"], segEdgeOk t = true) ∧
    sanitizeSegments (sanitizeSegments ["My: Page"]) = sanitizeSegments ["My: Page"] :=
  ⟨by decide, sanitizeSegments_idempotent_amended ["My: Page"] (by decide)⟩

end NotionPull
